import Mathlib

/-!
Verification development for the `ConwayClassifier` repository
(`src/ConwayClassifier/ConwayClassifier.cpp` together with the class header).

The C++ code is shallowly embedded: strings become `List Char`, the
`bool*` game board becomes a total map `Int → Bool` indexed by the flat
offset, machine `int` arithmetic (none of the claims concerns overflow)
becomes `Int`, and C++ calls that throw (`std::stoi` on a non-numeric
string, `std::string::substr` with an out-of-range position) become
`Option`-valued functions returning `none`.
-/

namespace Conway

/-! ## Character and token helpers -/

/-- The whitespace set used by `operator>>` / `std::isspace` in the "C"
locale: space, tab, newline, vertical tab, form feed, carriage return. -/
def isSpaceChar (c : Char) : Bool :=
  c == ' ' || c == '\t' || c == '\n' || c == '\x0b' || c == '\x0c' || c == '\r'

/-- Numeric value of a digit character, as computed by `c - '0'` in the
C++ source. -/
def repOf (c : Char) : Nat :=
  c.toNat - '0'.toNat

/-- Helper for `tokens`: accumulates the current (reversed) token while
scanning. -/
def tokensAux : List Char → List Char → List (List Char)
  | [], cur => if cur = [] then [] else [cur.reverse]
  | c :: rest, cur =>
      if isSpaceChar c then
        if cur = [] then tokensAux rest []
        else cur.reverse :: tokensAux rest []
      else tokensAux rest (c :: cur)

/-- The whitespace-separated tokens of a line, in order: the successive
strings produced by repeated `stream >> str` extraction. -/
def tokens (l : List Char) : List (List Char) :=
  tokensAux l []

/-- Value held by a `std::string` variable after it has been the target of
the `>>` extractions numbered `startRead` to `endRead` (1-indexed) from an
`istringstream` over `l`.  A `FormattedInputFunction` only clears the
target once its sentry succeeds, so a failing extraction (no tokens left)
leaves the previous value in place; if the variable's first extraction
already fails it keeps its initial empty value. -/
def varAfterReads (l : List Char) (startRead endRead : Nat) : List Char :=
  let ts := tokens l
  if ts.length ≥ startRead then ts.getD (min endRead ts.length - 1) [] else []

/-! ## `std::string` operations used by the source -/

/-- `str.substr(pos, cnt)`: `none` models the `std::out_of_range` throw
when `pos` exceeds the length; otherwise at most `cnt` characters starting
at `pos`. -/
def substrOpt (s : List Char) (pos cnt : Nat) : Option (List Char) :=
  if pos ≤ s.length then some ((s.drop pos).take cnt) else none

/-- The match test of `std::string::find`: does `d` occur in `s` starting
at position `i`? -/
def matchAt (s d : List Char) (i : Nat) : Bool :=
  (s.drop i).take d.length == d

/-- Forward scan of `std::string::find` from position `i` with `fuel`
remaining candidate positions. -/
def findLoop (s d : List Char) : Nat → Nat → Option Nat
  | _, 0 => none
  | i, fuel + 1 => if matchAt s d i then some i else findLoop s d (i + 1) fuel

/-- `str.find(delimiter)`: position of the first occurrence, `none` for
`npos`.  Candidate positions are `0 .. s.length - d.length`. -/
def strFind (s d : List Char) : Option Nat :=
  findLoop s d 0 (s.length - d.length + 1)

/-- `ConwayClassifier::split` (ConwayClassifier.cpp lines 113-123).
`none` models the `std::out_of_range` throw of the inner `substr` call
(reachable only for an empty string with an empty delimiter); the
size_t test `index != str.length() - 1` is `length = 0 ∨ index + 1 ≠ length`
because `0 - 1` wraps around in `size_t`. -/
def split (str delim : List Char) (firstStr : Bool) : Option (List Char) :=
  match strFind str delim with
  | some index =>
      if firstStr = true ∧ index ≠ 0 then substrOpt str 0 index
      else if str.length = 0 ∨ index + 1 ≠ str.length then
        substrOpt str (index + 1) (str.length - index - 1)
      else some []
  | none => some []

/-- Occurrence predicate: `d` occurs in `s` at position `i` (the
propositional form of `matchAt`). -/
def occursAt (s d : List Char) (i : Nat) : Prop :=
  (s.drop i).take d.length = d

instance (s d : List Char) (i : Nat) : Decidable (occursAt s d i) := by
  unfold occursAt
  infer_instance

/-! ## `std::stoi` -/

/-- Digit-string conversion used by `stoi` once sign handling is done:
`none` when no leading digits exist (`std::invalid_argument`). -/
def stoiDigits (s : List Char) (neg : Bool) : Option Int :=
  let ds := s.takeWhile Char.isDigit
  if ds = [] then none
  else
    let n : Nat := ds.foldl (fun a c => a * 10 + (c.toNat - '0'.toNat)) 0
    some (if neg then -(n : Int) else (n : Int))

/-- `std::stoi`: skip leading whitespace, optional sign, then a maximal
run of decimal digits; `none` models the `std::invalid_argument` throw
when no digits can be consumed. -/
def stoi (s : List Char) : Option Int :=
  let t := s.dropWhile isSpaceChar
  match t with
  | '-' :: r => stoiDigits r true
  | '+' :: r => stoiDigits r false
  | _ => stoiDigits t false

/-! ## Header parsing (ConwayClassifier.cpp lines 89-111) -/

/-- Length of the `pos=` qualifier (header constant `posQualifierLen`). -/
def posQualifierLen : Nat := 4

/-- `ConwayClassifier::readPos`: `posStream >> posStr >> posStr` takes the
second whitespace token of line 1, drops the 4-character `pos=` qualifier
via `substr`, and converts the parts before and after the comma with
`stoi`.  `none` models any thrown exception aborting construction. -/
def readPos (l : List Char) : Option (Int × Int) :=
  let posStr := varAfterReads l 1 2
  match substrOpt posStr posQualifierLen (posStr.length - posQualifierLen) with
  | none => none
  | some p =>
      match split p [','] true with
      | none => none
      | some s1 =>
          match split p [','] false with
          | none => none
          | some s2 =>
              match stoi s1, stoi s2 with
              | some a, some b => some (a, b)
              | _, _ => none

/-- `ConwayClassifier::readWidthHeight`: `lineStream >> xInfo >> xInfo >>
xInfo >> yInfo >> yInfo >> yInfo` leaves the third token in `xInfo` and
the sixth in `yInfo`; both are split before their comma and converted with
`stoi`. -/
def readWidthHeight (l : List Char) : Option (Int × Int) :=
  let xInfo := varAfterReads l 1 3
  let yInfo := varAfterReads l 4 6
  match split xInfo [','] true with
  | none => none
  | some sx =>
      match split yInfo [','] true with
      | none => none
      | some sy =>
          match stoi sx, stoi sy with
          | some a, some b => some (a, b)
          | _, _ => none

/-! ## Bounding-box unifier (ConwayClassifier.cpp lines 48-87) -/

/-- The per-generation data `calcBoardSpecs` extracts from the two header
lines of one input file: `(posX, posY)` from `readPos` and
`(frameW, frameH)` from `readWidthHeight`. -/
structure GenHeader where
  posX : Int
  posY : Int
  frameW : Int
  frameH : Int

/-- The envelope computed by `calcBoardSpecs` and stored into the
instance variables `x`, `y`, `width`, `height`. -/
structure BoardSpec where
  x : Int
  y : Int
  width : Int
  height : Int

/-- One non-first iteration of the `calcBoardSpecs` loop: the four
conditional updates of `minX`, `minY`, `maxX`, `maxY` (lines 70-80), with
`tempMinX = posX`, `tempMaxX = posX + frameW`, and similarly for `y`. -/
def calcStep (acc : Int × Int × Int × Int) (g : GenHeader) : Int × Int × Int × Int :=
  match acc with
  | (minX, minY, maxX, maxY) =>
      ( if g.posX < minX then g.posX else minX,
        if g.posY < minY then g.posY else minY,
        if g.posX + g.frameW > maxX then g.posX + g.frameW else maxX,
        if g.posY + g.frameH > maxY then g.posY + g.frameH else maxY )

/-- `ConwayClassifier::calcBoardSpecs`: the first file seeds the
accumulator (lines 63-69), the remaining files run `calcStep`, and the
result is `(minX, minY, maxX - minX, maxY - minY)` (lines 83-86).  With no
files at all the C++ reads uninitialized variables; that case is `none`. -/
def calcBoardSpecs : List GenHeader → Option BoardSpec
  | [] => none
  | g0 :: rest =>
      let acc := rest.foldl calcStep (g0.posX, g0.posY, g0.posX + g0.frameW, g0.posY + g0.frameH)
      some ⟨acc.1, acc.2.1, acc.2.2.1 - acc.1, acc.2.2.2 - acc.2.1⟩

/-- Spec-side reading of the envelope (for the refinement claim about
`calcBoardSpecs`): running minimum of the generations' `minX`, seeded by
the first generation. -/
def envMinX (g0 : GenHeader) (rest : List GenHeader) : Int :=
  rest.foldl (fun a g => min a g.posX) g0.posX

/-- Spec-side running minimum of the generations' `minY`. -/
def envMinY (g0 : GenHeader) (rest : List GenHeader) : Int :=
  rest.foldl (fun a g => min a g.posY) g0.posY

/-- Spec-side running maximum of the generations' `minX + width`. -/
def envMaxX (g0 : GenHeader) (rest : List GenHeader) : Int :=
  rest.foldl (fun a g => max a (g.posX + g.frameW)) (g0.posX + g0.frameW)

/-- Spec-side running maximum of the generations' `minY + height`. -/
def envMaxY (g0 : GenHeader) (rest : List GenHeader) : Int :=
  rest.foldl (fun a g => max a (g.posY + g.frameH)) (g0.posY + g0.frameH)

/-! ## Board store (ConwayClassifier.cpp lines 181-233)

The `bool*` buffer is modeled as a total map from flat offsets to cell
values; an offset outside `[0, boardSize)` corresponds to an access
outside the allocation (undefined behavior in the C++). -/

/-- `ConwayClassifier::get1DIndex` (lines 181-193): the affine flat-index
formula `gen*width*height + (y - originY)*width + (x - originX)`.  No
bounds or sign check is performed (the source carries a ToDo for it). -/
def get1DIndex (ox oy w h gen xc yc : Int) : Int :=
  gen * w * h + (yc - oy) * w + (xc - ox)

/-- `ConwayClassifier::getCellVal` (lines 214-218): an unchecked read of
the buffer at the flat offset. -/
def getCellVal (board : Int → Bool) (ox oy w h gen xc yc : Int) : Bool :=
  board (get1DIndex ox oy w h gen xc yc)

/-- `ConwayClassifier::setCellVal` (lines 220-223): an unchecked write of
the buffer at the flat offset. -/
def setCellVal (board : Int → Bool) (ox oy w h gen xc yc : Int) (v : Bool) :
    Int → Bool :=
  fun i => if i = get1DIndex ox oy w h gen xc yc then v else board i

/-- `ConwayClassifier::initializeGameBoard` (lines 225-233): every cell of
the freshly allocated buffer is set to `false`. -/
def initialBoard : Int → Bool :=
  fun _ => false

/-! ## Run-length decoder / filler (ConwayClassifier.cpp lines 129-179)

`fillBoard` processes one generation stream at a time.  We model the body
decode of a single generation: the cursor `(curX, curY)` starts at the
generation's declared position, and the list `writes` records the
`(x, y)` arguments of the successive `setCellVal(gen, x, y, true)` calls. -/

/-- Decoder state: cursor position plus the recorded live-cell writes. -/
structure FillState where
  curX : Int
  curY : Int
  writes : List (Int × Int)

/-- One iteration of the inner `for (int i = 0; i < repCount; i++)` loop
(lines 158-173) for tag character `c`: `o` writes a live cell and
advances, `b` only advances, `$` resets `curX` to the generation's start
and moves one row down, anything else does nothing. -/
def applyTag (posX : Int) (c : Char) (st : FillState) : FillState :=
  if c = 'o' ∨ c = 'b' then
    { st with
      curX := st.curX + 1,
      writes := if c = 'o' then st.writes ++ [(st.curX, st.curY)] else st.writes }
  else if c = '$' then { st with curX := posX, curY := st.curY + 1 }
  else st

/-- The `while (is->get(c))` loop of `fillBoard` (lines 149-174).  A digit
character sets `repCount = c - '0'` (one digit only) and the next `get`
fetches the tag to repeat; if the stream ends right after the digit the
failed `get` leaves `c` holding the digit, which the repeat loop then
ignores.  A non-digit character is processed once (`repCount == 1`). -/
def fillLoop (posX : Int) : List Char → FillState → FillState
  | [], st => st
  | [c], st =>
      if c.isDigit then (applyTag posX c)^[repOf c] st
      else applyTag posX c st
  | c :: d :: rest, st =>
      if c.isDigit then fillLoop posX rest ((applyTag posX d)^[repOf c] st)
      else fillLoop posX (d :: rest) (applyTag posX c st)

/-- The live-cell writes performed while decoding one generation body
whose declared top-left position is `(posX, posY)`. -/
def fillGenWrites (body : List Char) (posX posY : Int) : List (Int × Int) :=
  (fillLoop posX body ⟨posX, posY, []⟩).writes

/-! ## Classifier (ConwayClassifier.cpp lines 13-25 and 195-202) -/

/-- `classNum` right after the constructor: line 15 sets it to the
sentinel `5`, and no other statement of the source ever assigns it
(`checkForClass1` / `checkForClass2` from the header are never called). -/
def constructorClassNum : Nat := 5

/-- `ConwayClassifier::classification` (lines 195-202): the
`if (classNum == 5)` branch is an empty ToDo, so the method returns
`classNum` unchanged. -/
def classification (classNum : Nat) : Nat :=
  classNum

/-- Class number for an extinct trajectory (fewer files than requested
generations), per the header documentation of `checkForClass1`. -/
def extinctClassNum : Nat := 1

/-- Class number for a periodic trajectory (a repeated encoded body), per
the header documentation of `checkForClass2`. -/
def periodicClassNum : Nat := 2

/-- Class number for everything else, per the header documentation
("anything greater than class 2 will be assigned a value of 3"). -/
def unresolvedClassNum : Nat := 3

/-! ## Board printer (ConwayClassifier.cpp lines 235-252) -/

/-- `ConwayClassifier::printGameBoard`: emits one character per cell of
the generation, from flat offset `index` (the generation's top-left
corner) for `width*height` cells.  The row-break test is transcribed with
the source's operator precedence: `i - index + 1 % this->width == 0`
parses as `(i - index) + (1 % width) == 0`, with C++ truncated `%`
(`Int.tmod`).  A final `std::endl` follows the loop. -/
def printGameBoard (board : Int → Bool) (ox oy w h genNum : Int)
    (onChar offChar : Char) : List Char :=
  let index := get1DIndex ox oy w h genNum ox oy
  let genLen := w * h
  ((List.range genLen.toNat).foldl
    (fun out k =>
      let i := index + (k : Int)
      let out2 := out ++ [if board i then onChar else offChar]
      if i - index + Int.tmod 1 w = 0 then out2 ++ ['\n'] else out2)
    []) ++ ['\n']

/-! ## Helper lemmas -/

lemma matchAt_iff (s d : List Char) (i : Nat) :
    matchAt s d i = true ↔ occursAt s d i := by
  simp [matchAt, occursAt]

lemma findLoop_some_spec (s d : List Char) :
    ∀ fuel i j, findLoop s d i fuel = some j →
      i ≤ j ∧ j < i + fuel ∧ occursAt s d j ∧
        ∀ k, i ≤ k → k < j → ¬ occursAt s d k := by
  intro fuel
  induction fuel with
  | zero =>
      intro i j hfl
      simp [findLoop] at hfl
  | succ n ih =>
      intro i j hfl
      simp only [findLoop] at hfl
      by_cases hm : matchAt s d i
      · rw [if_pos hm] at hfl
        obtain rfl : i = j := by exact Option.some.inj hfl
        refine ⟨le_refl i, by omega, (matchAt_iff s d i).mp hm, ?_⟩
        intro k hk1 hk2
        omega
      · rw [if_neg hm] at hfl
        obtain ⟨h1, h2, h3, h4⟩ := ih (i + 1) j hfl
        refine ⟨by omega, by omega, h3, ?_⟩
        intro k hk1 hk2
        rcases eq_or_lt_of_le hk1 with rfl | hlt
        · exact fun hocc => hm ((matchAt_iff s d _).mpr hocc)
        · exact h4 k hlt hk2

lemma findLoop_none_spec (s d : List Char) :
    ∀ fuel i, findLoop s d i fuel = none →
      ∀ k, i ≤ k → k < i + fuel → ¬ occursAt s d k := by
  intro fuel
  induction fuel with
  | zero =>
      intro i _ k hk1 hk2
      intro _
      omega
  | succ n ih =>
      intro i hfl k hk1 hk2
      simp only [findLoop] at hfl
      by_cases hm : matchAt s d i
      · rw [if_pos hm] at hfl
        exact absurd hfl (by simp)
      · rw [if_neg hm] at hfl
        rcases eq_or_lt_of_le hk1 with rfl | hlt
        · exact fun hocc => hm ((matchAt_iff s d _).mpr hocc)
        · exact ih (i + 1) hfl k hlt (by omega)

lemma occursAt_le {s d : List Char} {i : Nat} (hd : d ≠ [])
    (hocc : occursAt s d i) : i + d.length ≤ s.length := by
  have hlen := congrArg List.length hocc
  simp only [List.length_take, List.length_drop] at hlen
  have hd1 : 0 < d.length := List.length_pos.mpr hd
  omega

lemma strFind_eq_none_of_no_occ (s d : List Char)
    (h : ∀ i, ¬ occursAt s d i) : strFind s d = none := by
  cases hf : strFind s d with
  | none => rfl
  | some j =>
      have hspec := findLoop_some_spec s d (s.length - d.length + 1) 0 j
        (by simpa [strFind] using hf)
      exact absurd hspec.2.2.1 (h j)

lemma strFind_eq_some_of_minimal (s d : List Char) (i : Nat) (hd : d ≠ [])
    (hocc : occursAt s d i) (hmin : ∀ j, j < i → ¬ occursAt s d j) :
    strFind s d = some i := by
  have hb : i + d.length ≤ s.length := occursAt_le hd hocc
  have hd1 : 0 < d.length := List.length_pos.mpr hd
  cases hf : strFind s d with
  | none =>
      have hno := findLoop_none_spec s d (s.length - d.length + 1) 0
        (by simpa [strFind] using hf) i (Nat.zero_le i) (by omega)
      exact absurd hocc hno
  | some j =>
      obtain ⟨h1, h2, h3, h4⟩ := findLoop_some_spec s d (s.length - d.length + 1) 0 j
        (by simpa [strFind] using hf)
      have hij : j = i := by
        rcases lt_trichotomy j i with hlt | heq | hgt
        · exact absurd h3 (hmin j hlt)
        · exact heq
        · exact absurd hocc (h4 i (Nat.zero_le i) hgt)
      rw [hij]

lemma ite_lt_eq_min (a x : Int) : (if x < a then x else a) = min a x := by
  rcases lt_or_le x a with hlt | hle
  · rw [if_pos hlt, min_eq_right hlt.le]
  · rw [if_neg (not_lt.mpr hle), min_eq_left hle]

lemma ite_gt_eq_max (c x : Int) : (if x > c then x else c) = max c x := by
  rcases lt_or_le c x with hlt | hle
  · rw [if_pos hlt, max_eq_right hlt.le]
  · rw [if_neg (not_lt.mpr hle), max_eq_left hle]

lemma calcFold_eq (rest : List GenHeader) :
    ∀ a b c d : Int,
      List.foldl calcStep (a, b, c, d) rest =
        (List.foldl (fun acc g => min acc g.posX) a rest,
         List.foldl (fun acc g => min acc g.posY) b rest,
         List.foldl (fun acc g => max acc (g.posX + g.frameW)) c rest,
         List.foldl (fun acc g => max acc (g.posY + g.frameH)) d rest) := by
  induction rest with
  | nil =>
      intro a b c d
      rfl
  | cons g t ih =>
      intro a b c d
      simp only [List.foldl_cons]
      rw [show calcStep (a, b, c, d) g =
            (min a g.posX, min b g.posY,
             max c (g.posX + g.frameW), max d (g.posY + g.frameH)) by
          simp only [calcStep]
          rw [ite_lt_eq_min, ite_lt_eq_min, ite_gt_eq_max, ite_gt_eq_max]]
      exact ih _ _ _ _

lemma mul_add_inj {w q1 r1 q2 r2 : Int} (hw : 0 < w)
    (h1 : 0 ≤ r1) (h2 : r1 < w) (h3 : 0 ≤ r2) (h4 : r2 < w)
    (heq : q1 * w + r1 = q2 * w + r2) : q1 = q2 ∧ r1 = r2 := by
  have hq : q1 = q2 := by
    by_contra hne
    rcases lt_or_gt_of_ne hne with hlt | hgt
    · have h5 : q1 + 1 ≤ q2 := hlt
      have h6 : (q1 + 1) * w ≤ q2 * w := mul_le_mul_of_nonneg_right h5 hw.le
      rw [add_mul, one_mul] at h6
      linarith
    · have h5 : q2 + 1 ≤ q1 := hgt
      have h6 : (q2 + 1) * w ≤ q1 * w := mul_le_mul_of_nonneg_right h5 hw.le
      rw [add_mul, one_mul] at h6
      linarith
  refine ⟨hq, ?_⟩
  rw [hq] at heq
  linarith

/-! ## Claim theorems -/

/-- Claim C1, evaluation at the failing input.  The spec requires a
multi-digit run count ("12o" writes 12 live cells), but `fillBoard` reads
exactly one digit (`repCount = c - '0'`, lines 152-156): decoding the body
"12o!" from cursor (0,0) consumes '1' as the count, applies it to the
tag '2' (a no-op), then treats 'o' as a fresh token — exactly one live
cell is written, not 12. -/
theorem fillBoard_single_digit_run_count :
    fillGenWrites (("12o!").toList) 0 0 = [((0 : Int), (0 : Int))]
    ∧ (fillGenWrites (("12o!").toList) 0 0).length = 1
    ∧ (1 : Nat) ≠ 12 := by
  decide

/-- Claim C2, evaluation of the code.  The constructor sets `classNum` to
the sentinel 5 (line 15) and `classification()` (lines 195-202) has an
empty ToDo body, so it returns 5 — never Extinct (1), Periodic (2) or
Unresolved (3), regardless of how many generation files are available. -/
theorem classification_returns_sentinel :
    classification constructorClassNum = 5
    ∧ classification constructorClassNum ≠ extinctClassNum
    ∧ classification constructorClassNum ≠ periodicClassNum
    ∧ classification constructorClassNum ≠ unresolvedClassNum := by
  decide

/-- Claim C3, evaluation at the failing input.  `fillBoard`'s
`while (is->get(c))` loop (lines 149-174) has no `break` for '!': decoding
the body "o!o" writes the live cell (1,0) from the byte after the '!',
whereas decoding "o!" writes only (0,0) — so trailing bytes after '!' do
affect the board. -/
theorem fillBoard_decodes_after_terminator :
    fillGenWrites (("o!o").toList) 0 0 = [((0 : Int), (0 : Int)), (1, 0)]
    ∧ fillGenWrites (("o!").toList) 0 0 = [((0 : Int), (0 : Int))] := by
  decide

/-- Claim C4, evaluation at the failing input.  With envelope origin
(0,0), width 3, height 2: `get1DIndex` has no bounds or sign check (the
source line 191 carries an ungarded ToDo), so the out-of-envelope query
(gen 0, x = -1, y = 0) yields the negative offset -1 with no error, the
query (gen 0, x = -1, y = 1) yields offset 2 — the flat index of the
in-envelope cell (2,0) — and `getCellVal`/`setCellVal` silently read and
write through that aliased offset instead of failing with
IndexOutOfRange. -/
theorem getCellVal_no_bounds_check :
    get1DIndex 0 0 3 2 0 (-1) 0 = -1
    ∧ get1DIndex 0 0 3 2 0 (-1) 1 = get1DIndex 0 0 3 2 0 2 0
    ∧ getCellVal (fun i => i == 2) 0 0 3 2 0 (-1) 1 = true
    ∧ getCellVal (fun i => i == 2) 0 0 3 2 0 2 0 = true
    ∧ (setCellVal initialBoard 0 0 3 2 0 (-1) 1 true) (get1DIndex 0 0 3 2 0 2 0)
        = true := by
  decide

/-- Claim C8, evaluation at the failing input.  For width 2, height 2 and
an all-dead generation, `printGameBoard` emits "0000\n": the row-break
test `i - index + 1 % this->width == 0` parses as
`(i - index) + (1 % width) == 0`, which never holds for width > 1, so no
per-row newlines and no trailing blank line are produced — instead of the
claimed two newline-terminated rows of two characters plus a blank
line ("00\n00\n\n"). -/
theorem printGameBoard_missing_row_newlines :
    printGameBoard initialBoard 0 0 2 2 0 '1' '0' = (("0000\n").toList)
    ∧ (("0000\n").toList) ≠ (("00\n00\n\n").toList) := by
  decide

/-- Claim C5: on the valid coordinate space (0 ≤ gen < generationCount,
originX ≤ x < originX + width, originY ≤ y < originY + height, with
positive width and height), `setCellVal` followed by `getCellVal` at the
same triple returns the written value, and `get1DIndex` is injective:
distinct valid triples get distinct flat offsets. -/
theorem set_get_roundtrip_and_index_injective
    (board : Int → Bool) (ox oy w h gc g x y g2 x2 y2 : Int) (v : Bool)
    (hw : 0 < w) (hh : 0 < h)
    ( _hg0 : 0 ≤ g) ( _hg1 : g < gc)
    (hx0 : ox ≤ x) (hx1 : x < ox + w)
    (hy0 : oy ≤ y) (hy1 : y < oy + h)
    ( _hg2 : 0 ≤ g2) ( _hg3 : g2 < gc)
    (hx2 : ox ≤ x2) (hx3 : x2 < ox + w)
    (hy2 : oy ≤ y2) (hy3 : y2 < oy + h) :
    getCellVal (setCellVal board ox oy w h g x y v) ox oy w h g x y = v
    ∧ (get1DIndex ox oy w h g x y = get1DIndex ox oy w h g2 x2 y2 →
        g = g2 ∧ x = x2 ∧ y = y2) := by
  constructor
  · simp [getCellVal, setCellVal]
  · intro he
    have he2 : (g * h + (y - oy)) * w + (x - ox) =
        (g2 * h + (y2 - oy)) * w + (x2 - ox) := by
      unfold get1DIndex at he
      linear_combination he
    obtain ⟨hq1, hr1⟩ :=
      mul_add_inj hw (by omega) (by omega) (by omega) (by omega) he2
    obtain ⟨hq2, hr2⟩ :=
      mul_add_inj hh (by omega) (by omega) (by omega) (by omega) hq1
    exact ⟨hq2, by omega, by omega⟩

/-- Witness for claim C5 at origin (0,0), width 3, height 2, four
generations, writing `true` at (gen,x,y) = (1,2,1). -/
theorem set_get_roundtrip_and_index_injective_witness :
    getCellVal (setCellVal initialBoard 0 0 3 2 1 2 1 true) 0 0 3 2 1 2 1 = true
    ∧ (get1DIndex 0 0 3 2 1 2 1 = get1DIndex 0 0 3 2 1 2 1 →
        (1 : Int) = 1 ∧ (2 : Int) = 2 ∧ (1 : Int) = 1) :=
  set_get_roundtrip_and_index_injective initialBoard 0 0 3 2 4 1 2 1 1 2 1 true
    (by decide) (by decide) (by decide) (by decide) (by decide) (by decide)
    (by decide) (by decide) (by decide) (by decide) (by decide) (by decide)
    (by decide) (by decide)

/-- Claim C6: for a non-empty sequence of generation headers,
`calcBoardSpecs` computes exactly the envelope described by the spec — the
accumulator is seeded with the first generation's
(minX, minY, minX + width, minY + height) and folded componentwise with
min/max over the remaining generations, and the output is
(globalMinX, globalMinY, globalMaxX - globalMinX, globalMaxY - globalMinY). -/
theorem calcBoardSpecs_envelope (g0 : GenHeader) (rest : List GenHeader) :
    calcBoardSpecs (g0 :: rest) =
      some ⟨envMinX g0 rest, envMinY g0 rest,
            envMaxX g0 rest - envMinX g0 rest,
            envMaxY g0 rest - envMinY g0 rest⟩ := by
  simp only [calcBoardSpecs, envMinX, envMinY, envMaxX, envMaxY, calcFold_eq]

/-- Witness for claim C6 on two concrete headers. -/
theorem calcBoardSpecs_envelope_witness :
    calcBoardSpecs [⟨0, 0, 3, 2⟩, ⟨-1, 4, 1, 1⟩] =
      some ⟨envMinX ⟨0, 0, 3, 2⟩ [⟨-1, 4, 1, 1⟩],
            envMinY ⟨0, 0, 3, 2⟩ [⟨-1, 4, 1, 1⟩],
            envMaxX ⟨0, 0, 3, 2⟩ [⟨-1, 4, 1, 1⟩]
              - envMinX ⟨0, 0, 3, 2⟩ [⟨-1, 4, 1, 1⟩],
            envMaxY ⟨0, 0, 3, 2⟩ [⟨-1, 4, 1, 1⟩]
              - envMinY ⟨0, 0, 3, 2⟩ [⟨-1, 4, 1, 1⟩]⟩ :=
  calcBoardSpecs_envelope ⟨0, 0, 3, 2⟩ [⟨-1, 4, 1, 1⟩]

/-- Claim C7, evaluation at the failing input.  `readPos` never checks
that the second token of line 1 actually begins with the `pos=`
qualifier: it blindly drops `posQualifierLen` characters of it.  For the
line "#C abcd0,0" — whose second token "abcd0,0" does not begin with
`pos=`, so the line carries no `pos=X,Y` token — the dropped payload is
"0,0", both comma-splits convert to 0, and `readPos` silently returns
position (0, 0) instead of failing fast with a ParseError that aborts
construction. -/
theorem readPos_silently_yields_zero :
    (varAfterReads (("#C abcd0,0").toList) 1 2).take posQualifierLen
      ≠ (("pos=").toList)
    ∧ readPos (("#C abcd0,0").toList) = some (0, 0) := by
  decide

/-- Claim C9 counterexample: for the multi-character delimiter "XY" in
"abXYcd", the first occurrence starts at index 2 (not at index 0, not at
the last index), yet `split(s, d, false)` returns "Ycd" — the substring
starting one character past the start of the occurrence, which still
contains the second delimiter character — and not the suffix "cd" after
the occurrence that the claim describes. -/
theorem split_multichar_delimiter_counterexample :
    split (("abXYcd").toList) (("XY").toList) false = some (("Ycd").toList)
    ∧ (("Ycd").toList) ≠ (("cd").toList) := by
  decide

/-- Claim C9 (amended): full characterization of `split` for a non-empty
delimiter.  If `d` does not occur in `s`, both variants return the empty
string.  If the first occurrence of `d` starts at index `i`:
`split(s, d, true)` returns the prefix before the occurrence when
`i ≠ 0`, and otherwise the substring of `s` starting at index `i + 1`
(one character past the start of the occurrence; empty when the
occurrence starts at the last index); `split(s, d, false)` returns the
substring starting at index `i + 1` when `i` is not the last index of
`s`, and the empty string otherwise. -/
theorem split_characterization (s d : List Char) (hd : d ≠ []) :
    ((∀ i, ¬ occursAt s d i) →
        split s d true = some [] ∧ split s d false = some [])
    ∧ (∀ i, occursAt s d i → (∀ j, j < i → ¬ occursAt s d j) →
        ((i ≠ 0 → split s d true = some (s.take i))
        ∧ (i = 0 → i + 1 ≠ s.length → split s d true = some (s.drop (i + 1)))
        ∧ (i = 0 → i + 1 = s.length → split s d true = some [])
        ∧ (i + 1 ≠ s.length → split s d false = some (s.drop (i + 1)))
        ∧ (i + 1 = s.length → split s d false = some []))) := by
  constructor
  · intro hno
    have hf := strFind_eq_none_of_no_occ s d hno
    constructor <;> simp [split, hf]
  · intro i hocc hmin
    have hf := strFind_eq_some_of_minimal s d i hd hocc hmin
    have hb : i + d.length ≤ s.length := occursAt_le hd hocc
    have hd1 : 0 < d.length := List.length_pos.mpr hd
    have hi1 : i + 1 ≤ s.length := by omega
    have hdrop : (s.drop (i + 1)).take (s.length - (i + 1)) = s.drop (i + 1) := by
      have hlen2 : s.length - (i + 1) = (s.drop (i + 1)).length := by
        rw [List.length_drop]
      rw [hlen2, List.take_length]
    refine ⟨?_, ?_, ?_, ?_, ?_⟩
    · intro h0
      simp only [split, hf]
      rw [if_pos ⟨by trivial, h0⟩]
      simp [substrOpt]
    · intro h0 hlen
      subst h0
      simp only [split, hf]
      rw [if_neg (by intro hc; exact hc.2 rfl)]
      rw [if_pos (Or.inr hlen)]
      have : s.length - 0 - 1 = s.length - (0 + 1) := by omega
      simp only [substrOpt, if_pos hi1, this, hdrop]
    · intro h0 hlen
      subst h0
      simp only [split, hf]
      rw [if_neg (by intro hc; exact hc.2 rfl)]
      rw [if_neg (by omega)]
    · intro hlen
      simp only [split, hf]
      rw [if_neg (by intro hc; exact absurd hc.1 (by simp))]
      rw [if_pos (Or.inr hlen)]
      have : s.length - i - 1 = s.length - (i + 1) := by omega
      simp only [substrOpt, if_pos hi1, this, hdrop]
    · intro hlen
      simp only [split, hf]
      rw [if_neg (by intro hc; exact absurd hc.1 (by simp))]
      rw [if_neg (by omega)]

/-- Witness for claim C9 (amended) on "a,b" with delimiter ",": the
first (and only) occurrence is at index 1, so the before-variant returns
"a" and the after-variant returns "b". -/
theorem split_characterization_witness :
    split (("a,b").toList) [ ','] true = some ((("a,b").toList).take 1)
    ∧ split (("a,b").toList) [ ','] false = some ((("a,b").toList).drop 2) := by
  have H := (split_characterization (("a,b").toList) [ ','] (by decide)).2 1
    (by decide)
    (fun j hj => by
      have hj0 : j = 0 := by omega
      subst hj0
      decide)
  exact ⟨H.1 (by decide), H.2.2.2.1 (by decide)⟩

/-- Claim C10: for any generation `g` and any row `y` strictly inside the
envelope vertically, the out-of-envelope coordinate one column left of the
origin aliases the last cell of the previous row —
`get1DIndex(g, originX - 1, y) = get1DIndex(g, originX + width - 1, y - 1)`
— so `getCellVal` on the out-of-envelope coordinate returns the stored
value of that different, in-envelope cell. -/
theorem get1DIndex_alias_left_of_origin
    (board : Int → Bool) (ox oy w h g y : Int)
    (hw : 0 < w) (hy0 : oy < y) (hy1 : y < oy + h) :
    get1DIndex ox oy w h g (ox - 1) y = get1DIndex ox oy w h g (ox + w - 1) (y - 1)
    ∧ getCellVal board ox oy w h g (ox - 1) y
        = getCellVal board ox oy w h g (ox + w - 1) (y - 1)
    ∧ ox - 1 < ox
    ∧ (ox ≤ ox + w - 1 ∧ ox + w - 1 < ox + w ∧ oy ≤ y - 1 ∧ y - 1 < oy + h)
    ∧ (ox + w - 1, y - 1) ≠ (ox - 1, y) := by
  have hidx : get1DIndex ox oy w h g (ox - 1) y
      = get1DIndex ox oy w h g (ox + w - 1) (y - 1) := by
    unfold get1DIndex
    ring
  refine ⟨hidx, ?_, by omega, ⟨by omega, by omega, by omega, by omega⟩, ?_⟩
  · simp only [getCellVal]
    rw [hidx]
  · intro hp
    have h2 := congrArg Prod.snd hp
    simp only at h2
    omega

/-- Witness for claim C10 at origin (0,0), width 3, height 2, generation
0, row y = 1: the coordinate (-1, 1) aliases the in-envelope cell (2, 0). -/
theorem get1DIndex_alias_left_of_origin_witness :
    get1DIndex 0 0 3 2 0 (0 - 1) 1 = get1DIndex 0 0 3 2 0 (0 + 3 - 1) (1 - 1)
    ∧ getCellVal initialBoard 0 0 3 2 0 (0 - 1) 1
        = getCellVal initialBoard 0 0 3 2 0 (0 + 3 - 1) (1 - 1)
    ∧ (0 : Int) - 1 < 0
    ∧ ((0 : Int) ≤ 0 + 3 - 1 ∧ (0 : Int) + 3 - 1 < 0 + 3
        ∧ (0 : Int) ≤ 1 - 1 ∧ (1 : Int) - 1 < 0 + 2)
    ∧ ((0 : Int) + 3 - 1, (1 : Int) - 1) ≠ ((0 : Int) - 1, (1 : Int)) :=
  get1DIndex_alias_left_of_origin initialBoard 0 0 3 2 0 1
    (by decide) (by decide) (by decide)

end Conway
